import Mathlib

/-!
Verification of the meeting-recording subsystem of the WebClients repository.

The definitions below are shallow embeddings of the TypeScript sources:
* `OPFSWorkerStorage` and its operations embed the storage worker in
  `applications/meet/src/app/hooks/useMeetingRecorder/recordingWorker.ts`;
* `getRecordingDetails` embeds the codec negotiation in
  `applications/meet/src/app/hooks/useMeetingRecorder/utils.ts`;
* `drawRecordingCanvas` and `handleRenderMessage` embed the compositor worker in
  `applications/meet/src/app/hooks/useMeetingRecorder/renderWorker.ts`;
* the orchestrator slices embed `useMeetingRecorder.ts`.

The origin-private file system is modelled as an association list from file
names to byte lists, and JS numbers in the layout code are modelled as exact
rationals.
-/

namespace MeetRecording

/-- Byte strings are modelled as lists of naturals. -/
abbrev Bytes := List Nat

/-- The origin-private file root: an association list from file names to contents. -/
abbrev FS := List (String × Bytes)

/-- Look up the contents of a file by name. -/
def fsLookup : FS → String → Option Bytes
  | [], _ => none
  | (n, c) :: rest, name => if n = name then some c else fsLookup rest name

/-- Write the contents of a file, replacing an existing entry or creating a new one. -/
def fsSet : FS → String → Bytes → FS
  | [], name, c => [(name, c)]
  | (n, c0) :: rest, name, c =>
      if n = name then (name, c) :: rest else (n, c0) :: fsSet rest name c

/-- Remove the entry for a file name (`FileSystemDirectoryHandle.removeEntry`). -/
def fsRemove : FS → String → FS
  | [], _ => []
  | (n, c) :: rest, name => if n = name then rest else (n, c) :: fsRemove rest name

/-- A random-access write at byte offset `pos`, as performed by
`FileSystemSyncAccessHandle.write(buffer, { at: pos })`: bytes before `pos` are
kept (zero padding if the file is shorter), the chunk overwrites from `pos`, and
any bytes past the end of the chunk are kept. -/
def writeAt (content : Bytes) (pos : Nat) (chunk : Bytes) : Bytes :=
  List.takeD pos content 0 ++ chunk ++ content.drop (pos + chunk.length)

/-- Which OPFS write APIs the platform exposes on the file handle
(`createWritable` / `createSyncAccessHandle`). -/
structure WriteCaps where
  hasCreateWritable : Bool
  hasCreateSyncAccessHandle : Bool
deriving DecidableEq, Repr

/-- State of the `OPFSWorkerStorage` class of `recordingWorker.ts`.

* `writable` models the `FileSystemWritableFileStream`: it stages written bytes
  and commits them to the backing file on `close` (the stream is created
  without `keepExistingData`, so it stages from empty);
* `syncAccessHandle` models the open `FileSystemSyncAccessHandle` together with
  the file bytes it addresses; `flush` persists them to the file system. -/
structure OPFSWorkerStorage where
  rootAcquired : Bool
  fileHandle : Option String
  writable : Option Bytes
  syncAccessHandle : Option Bytes
  useSyncAPI : Bool
  filePosition : Nat
  recordingId : String
  fileExtension : String
  fileName : String
deriving DecidableEq, Repr

/-- The field initializers of `OPFSWorkerStorage` (the worker creates one
instance at module scope: `const storage = new OPFSWorkerStorage()`). -/
def OPFSWorkerStorage.initial : OPFSWorkerStorage :=
  { rootAcquired := false
    fileHandle := none
    writable := none
    syncAccessHandle := none
    useSyncAPI := false
    filePosition := 0
    recordingId := ""
    fileExtension := "webm"
    fileName := "" }

/-- The deterministic backing-file name `recording-<id>.<extension>`. -/
def backingFileName (recordingId fileExtension : String) : String :=
  "recording-" ++ recordingId ++ "." ++ fileExtension

/-- `OPFSWorkerStorage.init`: record the session identity, acquire the root,
get or create the backing file, then pick the write strategy: `createWritable`
if available, else `createSyncAccessHandle`, else throw. -/
def OPFSWorkerStorage.init (caps : WriteCaps) (s : OPFSWorkerStorage) (fs : FS)
    (recordingId fileExtension : String) :
    Except String Unit × OPFSWorkerStorage × FS :=
  let s := { s with
    recordingId := recordingId
    fileExtension := fileExtension
    fileName := backingFileName recordingId fileExtension
    rootAcquired := true }
  let fs := match fsLookup fs s.fileName with
    | some _ => fs
    | none => fsSet fs s.fileName []
  let s := { s with fileHandle := some s.fileName }
  if caps.hasCreateWritable then
    (.ok (), { s with writable := some [], useSyncAPI := false }, fs)
  else if caps.hasCreateSyncAccessHandle then
    let content := (fsLookup fs s.fileName).getD []
    (.ok (),
      { s with syncAccessHandle := some content, useSyncAPI := true, filePosition := 0 },
      fs)
  else
    (.error "No supported OPFS write API available in worker", s, fs)

/-- `OPFSWorkerStorage.addChunk`: on the sync path, write at `filePosition`,
advance the cursor by the reported byte count, and flush; on the streaming
path, append to the writable stream; otherwise throw. -/
def OPFSWorkerStorage.addChunk (s : OPFSWorkerStorage) (fs : FS) (chunkBuffer : Bytes) :
    Except String Unit × OPFSWorkerStorage × FS :=
  match s.useSyncAPI, s.syncAccessHandle with
  | true, some content =>
      let bytesWritten := chunkBuffer.length
      let newContent := writeAt content s.filePosition chunkBuffer
      (.ok (),
        { s with
            syncAccessHandle := some newContent
            filePosition := s.filePosition + bytesWritten },
        fsSet fs s.fileName newContent)
  | _, _ =>
      match s.writable with
      | some staged => (.ok (), { s with writable := some (staged ++ chunkBuffer) }, fs)
      | none => (.error "No writable stream or sync handle available", s, fs)

/-- `OPFSWorkerStorage.closeHandles`: close the writable stream (committing the
staged bytes) or flush and close the sync handle, and return the file name. -/
def OPFSWorkerStorage.closeHandles (s : OPFSWorkerStorage) (fs : FS) :
    Except String String × OPFSWorkerStorage × FS :=
  match s.writable with
  | some staged =>
      (.ok s.fileName, { s with writable := none }, fsSet fs s.fileName staged)
  | none =>
      match s.syncAccessHandle with
      | some content =>
          (.ok s.fileName, { s with syncAccessHandle := none }, fsSet fs s.fileName content)
      | none => (.ok s.fileName, s, fs)

/-- `OPFSWorkerStorage.clear`: close whichever handle is open, then, if the
root and the file handle are both present, remove the backing file; removing a
missing entry rejects with `NotFoundError`. -/
def OPFSWorkerStorage.clear (s : OPFSWorkerStorage) (fs : FS) :
    Except String Unit × OPFSWorkerStorage × FS :=
  let closed : OPFSWorkerStorage × FS :=
    match s.writable with
    | some staged => ({ s with writable := none }, fsSet fs s.fileName staged)
    | none =>
        match s.syncAccessHandle with
        | some content => ({ s with syncAccessHandle := none }, fsSet fs s.fileName content)
        | none => (s, fs)
  let s := closed.1
  let fs := closed.2
  if s.rootAcquired && s.fileHandle.isSome then
    match fsLookup fs s.fileName with
    | some _ => (.ok (), { s with fileHandle := none }, fsRemove fs s.fileName)
    | none => (.error "NotFoundError", s, fs)
  else
    (.ok (), s, fs)

/-- `OPFSWorkerStorage.close`: close the sync handle if open, swallowing errors. -/
def OPFSWorkerStorage.close (s : OPFSWorkerStorage) (fs : FS) : OPFSWorkerStorage × FS :=
  match s.syncAccessHandle with
  | some content => ({ s with syncAccessHandle := none }, fsSet fs s.fileName content)
  | none => (s, fs)

/-- A request message of the storage worker protocol; payload fields default to
empty when the message kind does not carry them. -/
structure WorkerMessage where
  type : String
  id : String
  recordingId : String := ""
  fileExtension : String := ""
  chunkBuffer : Bytes := []
deriving DecidableEq, Repr

/-- A response message of the storage worker protocol. -/
structure WorkerResponse where
  type : String
  id : String
  fileName : Option String := none
  error : Option String := none
deriving DecidableEq, Repr

/-- The `self.onmessage` handler of `recordingWorker.ts`: dispatch on the
message type, post a success response on completion, and turn any thrown error
into an error response carrying the same correlation id; an unknown type throws
`Unknown message type` which is caught and reported the same way. -/
def handleWorkerMessage (caps : WriteCaps) (s : OPFSWorkerStorage) (fs : FS)
    (msg : WorkerMessage) : OPFSWorkerStorage × FS × WorkerResponse :=
  match msg.type with
  | "init" =>
      match OPFSWorkerStorage.init caps s fs msg.recordingId msg.fileExtension with
      | (.ok _, s, fs) => (s, fs, { type := "success", id := msg.id })
      | (.error e, s, fs) => (s, fs, { type := "error", id := msg.id, error := some e })
  | "addChunk" =>
      match s.addChunk fs msg.chunkBuffer with
      | (.ok _, s, fs) => (s, fs, { type := "success", id := msg.id })
      | (.error e, s, fs) => (s, fs, { type := "error", id := msg.id, error := some e })
  | "closeHandles" =>
      match s.closeHandles fs with
      | (.ok name, s, fs) =>
          (s, fs, { type := "success", id := msg.id, fileName := some name })
      | (.error e, s, fs) => (s, fs, { type := "error", id := msg.id, error := some e })
  | "clear" =>
      match s.clear fs with
      | (.ok _, s, fs) => (s, fs, { type := "success", id := msg.id })
      | (.error e, s, fs) => (s, fs, { type := "error", id := msg.id, error := some e })
  | "close" =>
      let closed := s.close fs
      (closed.1, closed.2, { type := "success", id := msg.id })
  | other =>
      (s, fs,
        { type := "error", id := msg.id, error := some ("Unknown message type: " ++ other) })

/-- Run a sequence of `addChunk` calls in order, stopping at the first error. -/
def addChunks (s : OPFSWorkerStorage) (fs : FS) :
    List Bytes → Except String Unit × OPFSWorkerStorage × FS
  | [] => (.ok (), s, fs)
  | chunk :: rest =>
      match s.addChunk fs chunk with
      | (.ok _, s, fs) => addChunks s fs rest
      | (.error e, s, fs) => (.error e, s, fs)

/-- Modelled from the spec: the bridge operation `readAll()` / `getFile()`
(its implementation lives in `workerStorage.ts`, which is not among the
provided sources) returns the complete backing-file content as a single
in-memory blob. -/
def readAll (fs : FS) (name : String) : Option Bytes :=
  fsLookup fs name

/-- The per-session storage invariant: the backing-file name is fixed, and the
bytes accepted so far are staged in the writable stream (streaming strategy) or
held by the sync access handle with the cursor at their end (random-access
strategy). -/
def SessionInv (name : String) (s : OPFSWorkerStorage) (w : Bytes) : Prop :=
  s.fileName = name ∧
  ((s.useSyncAPI = false ∧ s.writable = some w) ∨
   (s.useSyncAPI = true ∧ s.writable = none ∧ s.syncAccessHandle = some w ∧
    s.filePosition = w.length))

/-- The storage-setup slice of `startRecording` in `useMeetingRecorder.ts`: a
fresh worker storage is created and `await storage.init()` runs the worker
`init`; on success the hook proceeds with the session setup and ends with the
recording flag set; a thrown error is caught, logged and rethrown, so no
session starts. The Bool in the result is the resulting `isRecording` flag. -/
def startRecording (caps : WriteCaps) (fs : FS) (recordingId fileExtension : String) :
    Except String (Bool × OPFSWorkerStorage × FS) :=
  match OPFSWorkerStorage.init caps .initial fs recordingId fileExtension with
  | (.ok _, s, fs) => .ok (true, s, fs)
  | (.error e, _, _) => .error e

/-- The orchestrator state consulted by `stopRecording`: whether a
`MediaRecorder` instance exists, the `isRecording` flag, the storage bridge if
one is held, and a log of the bridges that have been terminated. -/
structure OrchestratorState where
  mediaRecorderPresent : Bool
  isRecording : Bool
  workerStorage : Option Nat
  terminatedBridges : List Nat
deriving DecidableEq, Repr

/-- How the `stopRecording` promise executor leaves the call: immediately
resolved with `null`, or waiting for the `onstop` callback of the recorder. -/
inductive StopOutcome where
  | resolvedNull
  | awaitingRecorderStop
deriving DecidableEq, Repr

/-- The synchronous decision structure of `stopRecording` in
`useMeetingRecorder.ts`: if a recorder exists and the state says recording,
install the `onstop` handler and call `mediaRecorder.stop()` (the promise
resolves later, once the callback fires); otherwise terminate the storage
bridge if one is held and resolve immediately with `null`. The executor only
ever calls `resolve`, never `reject`. -/
def stopRecording (st : OrchestratorState) : StopOutcome × OrchestratorState :=
  if st.mediaRecorderPresent && st.isRecording then
    (.awaitingRecorderStop, st)
  else
    match st.workerStorage with
    | some b =>
        (.resolvedNull,
          { st with
              workerStorage := none
              terminatedBridges := st.terminatedBridges ++ [b] })
    | none => (.resolvedNull, st)

/-- State of the chunk-delivery pipeline between the encoder, the
`ondataavailable` handler of `useMeetingRecorder.ts` and the storage worker.
Chunks are numbered in encoder emission order; `workerInbox` is the FIFO
message queue of the storage worker, `workerWritten` the order in which the
worker appended chunks to the file, `responses` the FIFO queue of success
responses travelling back, and `inFlight` the `addChunk` calls whose round
trip has not completed. -/
structure PipelineState where
  firedEvents : Nat
  workerInbox : List Nat
  workerWritten : List Nat
  responses : List Nat
  inFlight : List Nat
deriving DecidableEq, Repr

/-- The pipeline before any `dataavailable` event fired. -/
def PipelineState.start : PipelineState :=
  { firedEvents := 0, workerInbox := [], workerWritten := [], responses := [], inFlight := [] }

/-- One step of the chunk-delivery pipeline.

* `fireDataAvailable`: the recorder fires the next timeslice event; the
  `ondataavailable` handler runs synchronously up to its `await`, posting the
  `addChunk` request for the next chunk. Nothing gates this on earlier round
  trips being complete: the handler awaits only inside its own invocation, so
  this step is enabled even while earlier calls are still in flight.
* `workerWrite`: the storage worker takes the oldest inbox message, appends
  that chunk to the backing file, and queues the success response.
* `deliverResponse`: a response reaches the main thread and resumes the
  suspended handler, completing that round trip. -/
inductive PipelineStep (total : Nat) : PipelineState → PipelineState → Prop
  | fireDataAvailable {s : PipelineState} (h : s.firedEvents < total) :
      PipelineStep total s
        { s with
            firedEvents := s.firedEvents + 1
            workerInbox := s.workerInbox ++ [s.firedEvents]
            inFlight := s.inFlight ++ [s.firedEvents] }
  | workerWrite {s : PipelineState} {k : Nat} {rest : List Nat}
      (h : s.workerInbox = k :: rest) :
      PipelineStep total s
        { s with
            workerInbox := rest
            workerWritten := s.workerWritten ++ [k]
            responses := s.responses ++ [k] }
  | deliverResponse {s : PipelineState} {k : Nat} {rest : List Nat}
      (h : s.responses = k :: rest) :
      PipelineStep total s
        { s with
            responses := rest
            inFlight := s.inFlight.erase k }

/-- The pipeline states reachable from the start state by any interleaving. -/
inductive PipelineReachable (total : Nat) : PipelineState → Prop
  | refl : PipelineReachable total .start
  | step {s t : PipelineState} :
      PipelineReachable total s → PipelineStep total s t → PipelineReachable total t

/-- Per-slot metadata pushed to the render worker (`ParticipantInfo` in
`renderWorker.ts`). -/
structure ParticipantInfo where
  identity : String
  name : String
  participantIndex : Nat
  isScreenShare : Bool
  hasVideo : Bool
  hasActiveAudio : Bool
deriving DecidableEq, Repr

/-- The layout state of the render worker (`RenderState`). -/
structure RenderState where
  participants : List ParticipantInfo
  isLargerThanMd : Bool
  isNarrowHeight : Bool
deriving DecidableEq, Repr

/-- Lookup in the decoded-frame cache (`Map.get`); frames are identified by
numeric handles. -/
def mapGet : List (String × Nat) → String → Option Nat
  | [], _ => none
  | (k, v) :: rest, key => if k = key then some v else mapGet rest key

/-- Upsert in the decoded-frame cache (`Map.set`): replaces the binding of an
existing key in place, otherwise appends a new binding. -/
def mapSet : List (String × Nat) → String → Nat → List (String × Nat)
  | [], key, v => [(key, v)]
  | (k, v0) :: rest, key, v =>
      if k = key then (key, v) :: rest else (k, v0) :: mapSet rest key v

/-- The key under which Frame Acquisition publishes decoded frames
(`startFrameCapture` in the recorder hook): the participant identity, or the
identity suffixed with `-screenshare` for the screen-share of that
participant. -/
def participantKey (identity : String) (isScreenShare : Bool) : String :=
  if isScreenShare then identity ++ "-screenshare" else identity

/-- State of the render worker: layout state, decoded-frame cache, the log of
frame handles closed so far, and whether the paint loop is running. -/
structure RenderWorkerState where
  renderState : RenderState
  videoFrames : List (String × Nat)
  closedFrames : List Nat
  renderOn : Bool
deriving DecidableEq, Repr

/-- Messages of the compositor offload protocol (`RenderWorkerMessage`). -/
inductive RenderMessage where
  | init (state : Option RenderState)
  | render
  | updateState (state : Option RenderState)
  | updateFrame (participantIdentity : String) (frame : Nat)
  | updateFrames (frames : List (String × Nat))
  | stop
deriving DecidableEq, Repr

/-- Store one decoded frame in the cache: the frame previously cached for that
key, if any, is closed (`cleanupFrame`) before the new frame is stored. This is
the shared body of the `updateFrame` and `updateFrames` arms. -/
def storeFrame (s : RenderWorkerState) (key : String) (frame : Nat) :
    RenderWorkerState :=
  let s := match mapGet s.videoFrames key with
    | some oldFrame => { s with closedFrames := s.closedFrames ++ [oldFrame] }
    | none => s
  { s with videoFrames := mapSet s.videoFrames key frame }

/-- `stopRenderLoop`: halt the paint loop, close every cached frame, and clear
the cache. -/
def stopRenderLoop (s : RenderWorkerState) : RenderWorkerState :=
  { s with
      renderOn := false
      closedFrames := s.closedFrames ++ s.videoFrames.map Prod.snd
      videoFrames := [] }

/-- The `self.onmessage` handler of `renderWorker.ts` (the one-time canvas
handoff of `init` is not tracked; layout state, frame cache and loop flag
are). -/
def handleRenderMessage (s : RenderWorkerState) : RenderMessage → RenderWorkerState
  | .init st =>
      match st with
      | some newState => { s with renderState := newState }
      | none => s
  | .render => { s with renderOn := true }
  | .updateState st =>
      match st with
      | some newState => { s with renderState := newState }
      | none => s
  | .updateFrame key frame => storeFrame s key frame
  | .updateFrames frames => frames.foldl (fun t kv => storeFrame t kv.1 kv.2) s
  | .stop => stopRenderLoop s

/-- Gap between tiles, in canvas pixels (`renderWorker.ts`). -/
def GAP : ℚ := 11

/-- Fixed sidebar width in the screen-share layout (`renderWorker.ts`). -/
def SIDEBAR_WIDTH : ℚ := 320

/-- The profile color palette of `drawingUtils.ts` (matching the app styles). -/
def PROFILE_COLORS : List String :=
  ["#b9abff", "#88f189", "#ababf8", "#7bdcff", "#ff8a8a", "#ffb35f"]

/-- Modelled from the spec: the bounded maximum number of regular participants
shown in the screen-share sidebar. `SCREEN_SHARE_PAGE_SIZE` is imported from
the constants module of the meet application, which is not among the provided
sources; the spec describes a single sidebar capacity, used both to subdivide
the sidebar height and to truncate (first N by slot order), and the truncation
bound in the worker is `PROFILE_COLORS.length = 6`, so the page size is
modelled as 6. -/
def SCREEN_SHARE_PAGE_SIZE : Nat := 6

/-- The screen-share drawing of one paint tick: position, size, the frame drawn
(if one is cached under the `-screenshare` key) and the name label. -/
structure ScreenShareDraw where
  identity : String
  label : String
  x : ℚ
  y : ℚ
  width : ℚ
  height : ℚ
  frame : Option Nat
deriving DecidableEq, Repr

/-- One participant tile drawn in a paint tick: the slot it renders, its
rectangle, the color index `participantIndex % PROFILE_COLORS.length`, the
video frame drawn (when the slot has video and a frame is cached; a
placeholder is drawn when `hasVideo` is false), and whether the active-audio
border is drawn. -/
structure TileDraw where
  info : ParticipantInfo
  x : ℚ
  y : ℚ
  width : ℚ
  height : ℚ
  colorIndex : Nat
  frame : Option Nat
  borderActive : Bool
deriving DecidableEq, Repr

/-- The three layout branches of `drawRecordingCanvas`. -/
inductive RenderOutput where
  | screenShareWithSidebar (screen : ScreenShareDraw) (tiles : List TileDraw)
  | screenShareOnly (screen : ScreenShareDraw)
  | grid (cols rows : Nat) (tiles : List TileDraw)
deriving DecidableEq, Repr

/-- `numParticipantsInSidebar` of the screen-share branch: the number of
sidebar slots the canvas height is subdivided into. -/
def numParticipantsInSidebar (regularCount : Nat) : Nat :=
  min regularCount SCREEN_SHARE_PAGE_SIZE

/-- `sidebarItemHeight` of the screen-share branch:
`(canvas.height - GAP * (numParticipantsInSidebar + 1)) / numParticipantsInSidebar`. -/
def sidebarItemHeight (canvasHeight : ℚ) (regularCount : Nat) : ℚ :=
  (canvasHeight - GAP * ((numParticipantsInSidebar regularCount : ℚ) + 1)) /
    (numParticipantsInSidebar regularCount : ℚ)

/-- The body of the sidebar `forEach` loop of `drawRecordingCanvas`: the tile
drawn for the participant at sidebar index `ip.1`. `sidebarX` is
`screenShareX + screenShareWidth + GAP` with `screenShareX = GAP` and
`screenShareWidth = canvas.width - SIDEBAR_WIDTH - GAP * 2`. -/
def sidebarTileAt (canvasWidth canvasHeight : ℚ) (regularCount : Nat)
    (videoFrames : List (String × Nat)) (ip : Nat × ParticipantInfo) : TileDraw :=
  { info := ip.2
    x := GAP + (canvasWidth - SIDEBAR_WIDTH - GAP * 2) + GAP
    y := GAP + (ip.1 : ℚ) * (sidebarItemHeight canvasHeight regularCount + GAP)
    width := SIDEBAR_WIDTH - GAP
    height := sidebarItemHeight canvasHeight regularCount
    colorIndex := ip.2.participantIndex % PROFILE_COLORS.length
    frame := if ip.2.hasVideo then mapGet videoFrames ip.2.identity else none
    borderActive := ip.2.hasActiveAudio }

/-- `drawRecordingCanvas` of `renderWorker.ts`, as the structured record of the
draw calls of one paint tick. `calculateGridLayout` is the given layout
function imported from the application utilities (not among the provided
sources), so it is passed as a parameter; the screen-share branches never
consult it. -/
def drawRecordingCanvas (calculateGridLayout : Nat → Bool → Nat × Nat)
    (canvasWidth canvasHeight : ℚ) (rs : RenderState)
    (videoFrames : List (String × Nat)) : RenderOutput :=
  let screenShareParticipant := rs.participants.find? (fun p => p.isScreenShare)
  let regularParticipants := rs.participants.filter (fun p => !p.isScreenShare)
  let gridShape := calculateGridLayout regularParticipants.length
    (!rs.isLargerThanMd || rs.isNarrowHeight)
  match screenShareParticipant with
  | some ssp =>
      if 0 < regularParticipants.length then
        .screenShareWithSidebar
          { identity := ssp.identity
            label := ssp.name ++ " (Screen)"
            x := GAP
            y := GAP
            width := canvasWidth - SIDEBAR_WIDTH - GAP * 2
            height := canvasHeight - GAP * 2
            frame := mapGet videoFrames (ssp.identity ++ "-screenshare") }
          ((regularParticipants.take PROFILE_COLORS.length).enum.map
            (sidebarTileAt canvasWidth canvasHeight regularParticipants.length videoFrames))
      else
        .screenShareOnly
          { identity := ssp.identity
            label := ssp.name ++ " (is presenting)"
            x := 0
            y := 0
            width := canvasWidth
            height := canvasHeight
            frame := mapGet videoFrames (ssp.identity ++ "-screenshare") }
  | none =>
      let cols := gridShape.1
      let rows := gridShape.2
      let cellWidth := canvasWidth / (cols : ℚ)
      let cellHeight := canvasHeight / (rows : ℚ)
      .grid cols rows
        (regularParticipants.enum.map fun ip =>
          { info := ip.2
            x := ((ip.1 % cols : Nat) : ℚ) * cellWidth + GAP
            y := ((ip.1 / cols : Nat) : ℚ) * cellHeight + GAP
            width := cellWidth - GAP
            height := cellHeight - GAP
            colorIndex := ip.2.participantIndex % PROFILE_COLORS.length
            frame := if ip.2.hasVideo then mapGet videoFrames ip.2.identity else none
            borderActive := ip.2.hasActiveAudio })

/-- A concrete render state with one screen-share slot and seven regular
participant slots, used to evaluate the sidebar layout. -/
def sidebarExampleState : RenderState :=
  { participants :=
      [{ identity := "s", name := "S", participantIndex := 0, isScreenShare := true,
         hasVideo := true, hasActiveAudio := false },
       { identity := "p1", name := "P1", participantIndex := 0, isScreenShare := false,
         hasVideo := false, hasActiveAudio := false },
       { identity := "p2", name := "P2", participantIndex := 1, isScreenShare := false,
         hasVideo := false, hasActiveAudio := false },
       { identity := "p3", name := "P3", participantIndex := 2, isScreenShare := false,
         hasVideo := false, hasActiveAudio := false },
       { identity := "p4", name := "P4", participantIndex := 3, isScreenShare := false,
         hasVideo := false, hasActiveAudio := false },
       { identity := "p5", name := "P5", participantIndex := 4, isScreenShare := false,
         hasVideo := false, hasActiveAudio := false },
       { identity := "p6", name := "P6", participantIndex := 5, isScreenShare := false,
         hasVideo := false, hasActiveAudio := false },
       { identity := "p7", name := "P7", participantIndex := 6, isScreenShare := false,
         hasVideo := false, hasActiveAudio := true }]
    isLargerThanMd := true
    isNarrowHeight := false }

/-- The ordered mp4 candidate list of `utils.ts`. -/
def mp4Codecs : List String :=
  ["video/mp4;codecs=h264,aac",
   "video/mp4;codecs=avc1.42E01E,mp4a.40.2",
   "video/mp4;codecs=avc1",
   "video/mp4"]

/-- The ordered webm candidate list of `utils.ts`. -/
def webmCodecs : List String :=
  ["video/webm;codecs=vp9,opus",
   "video/webm;codecs=vp8,opus",
   "video/webm;codecs=vp9",
   "video/webm;codecs=vp8",
   "video/webm"]

/-- The first list element accepted by `MediaRecorder.isTypeSupported`; this is
the `for` loop with `break` of `getRecordingDetails`. -/
def firstSupported (isTypeSupported : String → Bool) : List String → Option String
  | [] => none
  | codec :: rest =>
      if isTypeSupported codec then some codec else firstSupported isTypeSupported rest

/-- `getRecordingDetails` of `utils.ts`: scan the mp4 candidates first; if none
is supported (the selected extension is still not `mp4`), scan the webm
candidates; the defaults `video/webm` / `webm` survive when nothing matched. -/
def getRecordingDetails (isTypeSupported : String → Bool) : String × String :=
  match firstSupported isTypeSupported mp4Codecs with
  | some codec => (codec, "mp4")
  | none =>
      match firstSupported isTypeSupported webmCodecs with
      | some codec => (codec, "webm")
      | none => ("video/webm", "webm")

end MeetRecording

namespace MeetRecording

theorem fsLookup_fsSet_self (fs : FS) (n : String) (c : Bytes) :
    fsLookup (fsSet fs n c) n = some c := by
  induction fs with
  | nil => simp [fsSet, fsLookup]
  | cons hd tl ih =>
      obtain ⟨n0, c0⟩ := hd
      by_cases h : n0 = n <;> simp [fsSet, fsLookup, h, ih]

theorem writeAt_at_length (content chunk : Bytes) :
    writeAt content content.length chunk = content ++ chunk := by
  unfold writeAt
  rw [List.takeD_eq_take 0 (le_refl _), List.take_length,
    List.drop_eq_nil_of_le (by omega)]
  simp

theorem init_ok_inv (caps : WriteCaps) (recordingId fileExtension : String) (fs : FS)
    (s₁ : OPFSWorkerStorage) (fs₁ : FS)
    (hfresh : fsLookup fs (backingFileName recordingId fileExtension) = none)
    (h : OPFSWorkerStorage.init caps .initial fs recordingId fileExtension =
      (.ok (), s₁, fs₁)) :
    SessionInv (backingFileName recordingId fileExtension) s₁ [] := by
  obtain ⟨hw, hs⟩ := caps
  cases hw <;> cases hs <;>
    simp [OPFSWorkerStorage.init, OPFSWorkerStorage.initial, hfresh,
      fsLookup_fsSet_self] at h <;>
    obtain ⟨h1, h2⟩ := h <;>
    simp [SessionInv, ← h1]

theorem addChunk_ok_inv (name : String) (s : OPFSWorkerStorage) (fs : FS)
    (chunk w : Bytes) (h : SessionInv name s w) :
    ∃ s' fs', s.addChunk fs chunk = (.ok (), s', fs') ∧ SessionInv name s' (w ++ chunk) := by
  obtain ⟨hname, hstrat⟩ := h
  rcases hstrat with ⟨hapi, hwri⟩ | ⟨hapi, hwri, hsync, hpos⟩
  · refine ⟨{ s with writable := some (w ++ chunk) }, fs, ?_, ?_⟩
    · simp [OPFSWorkerStorage.addChunk, hapi, hwri]
    · simp [SessionInv, hname, hapi]
  · refine ⟨{ s with
        syncAccessHandle := some (writeAt w s.filePosition chunk)
        filePosition := s.filePosition + chunk.length },
      fsSet fs s.fileName (writeAt w s.filePosition chunk), ?_, ?_⟩
    · simp [OPFSWorkerStorage.addChunk, hapi, hwri, hsync]
    · simp [SessionInv, hname, hapi, hwri, hpos, writeAt_at_length]

theorem addChunks_ok_inv (name : String) (chunks : List Bytes) (s : OPFSWorkerStorage)
    (fs : FS) (w : Bytes) (h : SessionInv name s w) :
    ∃ s' fs', addChunks s fs chunks = (.ok (), s', fs') ∧
      SessionInv name s' (w ++ chunks.flatten) := by
  induction chunks generalizing s fs w with
  | nil => exact ⟨s, fs, rfl, by simpa using h⟩
  | cons chunk rest ih =>
      obtain ⟨s', fs', hstep, hinv⟩ := addChunk_ok_inv name s fs chunk w h
      obtain ⟨s'', fs'', hrest, hinv'⟩ := ih s' fs' (w ++ chunk) hinv
      refine ⟨s'', fs'', ?_, by simpa using hinv'⟩
      simp [addChunks, hstep, hrest]

theorem closeHandles_ok_inv (name : String) (s : OPFSWorkerStorage) (fs : FS) (w : Bytes)
    (h : SessionInv name s w) :
    ∃ s', s.closeHandles fs = (.ok name, s', fsSet fs name w) := by
  obtain ⟨hname, hstrat⟩ := h
  rcases hstrat with ⟨_, hwri⟩ | ⟨_, hwri, hsync, _⟩
  · exact ⟨{ s with writable := none },
      by simp [OPFSWorkerStorage.closeHandles, hwri, hname]⟩
  · exact ⟨{ s with syncAccessHandle := none },
      by simp [OPFSWorkerStorage.closeHandles, hwri, hsync, hname]⟩

/-- C1: for every sequence of `addChunk` calls accepted without error after a
successful `init` on a fresh backing file, followed by `finalize`
(`closeHandles`), reading the backing file back yields exactly the
concatenation of the chunks in call order — under whichever write strategy
`init` selected (streaming or random-access). -/
theorem addChunk_roundTrip (caps : WriteCaps) (recordingId fileExtension : String)
    (fs₀ : FS) (chunks : List Bytes) (s₁ s₂ s₃ : OPFSWorkerStorage)
    (fs₁ fs₂ fs₃ : FS) (nm : String)
    (hfresh : fsLookup fs₀ (backingFileName recordingId fileExtension) = none)
    (hinit : OPFSWorkerStorage.init caps .initial fs₀ recordingId fileExtension =
      (.ok (), s₁, fs₁))
    (hadd : addChunks s₁ fs₁ chunks = (.ok (), s₂, fs₂))
    (hclose : s₂.closeHandles fs₂ = (.ok nm, s₃, fs₃)) :
    nm = backingFileName recordingId fileExtension ∧
    readAll fs₃ nm = some chunks.flatten := by
  have hinv₁ := init_ok_inv caps recordingId fileExtension fs₀ s₁ fs₁ hfresh hinit
  obtain ⟨s₂', fs₂', hadd', hinv₂⟩ :=
    addChunks_ok_inv (backingFileName recordingId fileExtension) chunks s₁ fs₁ [] hinv₁
  rw [hadd] at hadd'
  simp only [Prod.mk.injEq, true_and] at hadd'
  obtain ⟨h2, h3⟩ := hadd'
  subst h2
  subst h3
  obtain ⟨s₃', hclose'⟩ :=
    closeHandles_ok_inv (backingFileName recordingId fileExtension) s₂ fs₂ chunks.flatten
      (by simpa using hinv₂)
  rw [hclose] at hclose'
  simp only [Prod.mk.injEq, Except.ok.injEq] at hclose'
  obtain ⟨hnm, -, hfs⟩ := hclose'
  subst hfs
  subst hnm
  exact ⟨rfl, by simp [readAll, fsLookup_fsSet_self]⟩

end MeetRecording

namespace MeetRecording

theorem addChunk_roundTrip_witness :
    readAll [("recording-r1.mp4", [1, 2, 3])] "recording-r1.mp4" = some [1, 2, 3] := by
  have h := addChunk_roundTrip ⟨false, true⟩ "r1" "mp4" [] [[1, 2], [3]]
    { rootAcquired := true, fileHandle := some "recording-r1.mp4", writable := none,
      syncAccessHandle := some [], useSyncAPI := true, filePosition := 0,
      recordingId := "r1", fileExtension := "mp4", fileName := "recording-r1.mp4" }
    { rootAcquired := true, fileHandle := some "recording-r1.mp4", writable := none,
      syncAccessHandle := some [1, 2, 3], useSyncAPI := true, filePosition := 3,
      recordingId := "r1", fileExtension := "mp4", fileName := "recording-r1.mp4" }
    { rootAcquired := true, fileHandle := some "recording-r1.mp4", writable := none,
      syncAccessHandle := none, useSyncAPI := true, filePosition := 3,
      recordingId := "r1", fileExtension := "mp4", fileName := "recording-r1.mp4" }
    [("recording-r1.mp4", [])] [("recording-r1.mp4", [1, 2, 3])]
    [("recording-r1.mp4", [1, 2, 3])] "recording-r1.mp4"
    (by rfl) (by rfl) (by rfl) (by rfl)
  exact h.2

end MeetRecording

namespace MeetRecording

theorem clear_post (s s' : OPFSWorkerStorage) (fs fs' : FS)
    (h : s.clear fs = (.ok (), s', fs')) :
    s'.writable = none ∧ (s'.rootAcquired && s'.fileHandle.isSome) = false ∧
      ((s.writable = none ∨ s.syncAccessHandle = none) → s'.syncAccessHandle = none) := by
  rcases hw : s.writable with _ | w
  · rcases hs : s.syncAccessHandle with _ | c
    · simp only [OPFSWorkerStorage.clear, hw, hs] at h
      by_cases hcond : (s.rootAcquired && s.fileHandle.isSome) = true
      · simp only [hcond, if_true] at h
        rcases hlook : fsLookup fs s.fileName with _ | c0
        · rw [hlook] at h
          simp at h
        · rw [hlook] at h
          simp only [Prod.mk.injEq] at h
          obtain ⟨-, h2, -⟩ := h
          subst h2
          simp [hw, hs]
      · simp only [Bool.not_eq_true] at hcond
        simp only [hcond, Bool.false_eq_true, if_false, Prod.mk.injEq] at h
        obtain ⟨-, h2, -⟩ := h
        subst h2
        simp [hw, hs, hcond]
    · simp only [OPFSWorkerStorage.clear, hw, hs] at h
      by_cases hcond : (s.rootAcquired && s.fileHandle.isSome) = true
      · simp only [hcond, if_true] at h
        rw [fsLookup_fsSet_self] at h
        simp only [Prod.mk.injEq] at h
        obtain ⟨-, h2, -⟩ := h
        subst h2
        simp [hw]
      · simp only [Bool.not_eq_true] at hcond
        simp only [hcond, Bool.false_eq_true, if_false, Prod.mk.injEq] at h
        obtain ⟨-, h2, -⟩ := h
        subst h2
        simp [hw, hcond]
  · simp only [OPFSWorkerStorage.clear, hw] at h
    by_cases hcond : (s.rootAcquired && s.fileHandle.isSome) = true
    · simp only [hcond, if_true] at h
      rw [fsLookup_fsSet_self] at h
      simp only [Prod.mk.injEq] at h
      obtain ⟨-, h2, -⟩ := h
      subst h2
      refine ⟨rfl, by simp, ?_⟩
      intro hcase
      rcases hcase with hcase | hcase
      · cases hcase
      · exact hcase
    · simp only [Bool.not_eq_true] at hcond
      simp only [hcond, Bool.false_eq_true, if_false, Prod.mk.injEq] at h
      obtain ⟨-, h2, -⟩ := h
      subst h2
      refine ⟨rfl, by simp [hcond], ?_⟩
      intro hcase
      rcases hcase with hcase | hcase
      · cases hcase
      · exact hcase

/-- C4: `clear` is idempotent and total: calling it on the never-initialized
storage never throws and is an exact no-op; after any successful `clear`, a
second `clear` never throws, and whenever the cleared state did not hold both
kinds of write handle at once (true of every state the worker can actually
reach, since `init` opens exactly one), the second call changes nothing at all. -/
theorem clear_idempotent (s s' : OPFSWorkerStorage) (fs fs' : FS)
    (h : s.clear fs = (.ok (), s', fs')) :
    (∀ fs₀ : FS,
      OPFSWorkerStorage.initial.clear fs₀ = (.ok (), OPFSWorkerStorage.initial, fs₀)) ∧
    (∃ s'' fs'', s'.clear fs' = (.ok (), s'', fs'')) ∧
    ((s.writable = none ∨ s.syncAccessHandle = none) →
      s'.clear fs' = (.ok (), s', fs')) := by
  obtain ⟨h1, h2, h3⟩ := clear_post s s' fs fs' h
  refine ⟨fun fs₀ => rfl, ?_, ?_⟩
  · rcases hs2 : s'.syncAccessHandle with _ | c
    · exact ⟨s', fs', by simp [OPFSWorkerStorage.clear, h1, hs2, h2]⟩
    · exact ⟨{ s' with writable := none, syncAccessHandle := none },
        fsSet fs' s'.fileName c, by simp [OPFSWorkerStorage.clear, h1, hs2, h2]⟩
  · intro hcase
    have hs2 := h3 hcase
    simp [OPFSWorkerStorage.clear, h1, hs2, h2]

theorem clear_idempotent_witness :
    OPFSWorkerStorage.clear
      { rootAcquired := true, fileHandle := none, writable := none,
        syncAccessHandle := none, useSyncAPI := true, filePosition := 1,
        recordingId := "r1", fileExtension := "mp4", fileName := "recording-r1.mp4" }
      [] =
    (.ok (),
      { rootAcquired := true, fileHandle := none, writable := none,
        syncAccessHandle := none, useSyncAPI := true, filePosition := 1,
        recordingId := "r1", fileExtension := "mp4", fileName := "recording-r1.mp4" },
      []) :=
  (clear_idempotent
    { rootAcquired := true, fileHandle := some "recording-r1.mp4", writable := none,
      syncAccessHandle := some [1], useSyncAPI := true, filePosition := 1,
      recordingId := "r1", fileExtension := "mp4", fileName := "recording-r1.mp4" }
    { rootAcquired := true, fileHandle := none, writable := none,
      syncAccessHandle := none, useSyncAPI := true, filePosition := 1,
      recordingId := "r1", fileExtension := "mp4", fileName := "recording-r1.mp4" }
    [("recording-r1.mp4", [1])] [] (by rfl)).2.2 (Or.inl rfl)

end MeetRecording

namespace MeetRecording

/-- C3: when the platform offers neither `createWritable` nor
`createSyncAccessHandle` on the file handle, `init` throws
`No supported OPFS write API available in worker`; the worker surfaces it as an
error response on the same request id, and `startRecording` rethrows it, so the
recording flag is never set — there is no fallback success path that would
buffer in memory instead. -/
theorem init_unsupported_platform (s : OPFSWorkerStorage) (fs : FS)
    (recordingId fileExtension requestId : String) :
    (OPFSWorkerStorage.init ⟨false, false⟩ s fs recordingId fileExtension).1 =
      .error "No supported OPFS write API available in worker" ∧
    (handleWorkerMessage ⟨false, false⟩ s fs
      { type := "init", id := requestId, recordingId := recordingId,
        fileExtension := fileExtension }).2.2 =
      { type := "error", id := requestId,
        error := some "No supported OPFS write API available in worker" } ∧
    startRecording ⟨false, false⟩ fs recordingId fileExtension =
      .error "No supported OPFS write API available in worker" := by
  refine ⟨?_, ?_, ?_⟩ <;>
    simp [OPFSWorkerStorage.init, handleWorkerMessage, startRecording]

/-- C5: a worker message whose type is none of the five known request types
produces an error response carrying the same correlation id and a message
naming the unknown type, and leaves the storage state and the file system
untouched; the message is never silently dropped. -/
theorem unknown_message_type (caps : WriteCaps) (s : OPFSWorkerStorage) (fs : FS)
    (msg : WorkerMessage)
    (h : msg.type ∉ ["init", "addChunk", "closeHandles", "clear", "close"]) :
    handleWorkerMessage caps s fs msg =
      (s, fs,
        { type := "error", id := msg.id,
          error := some ("Unknown message type: " ++ msg.type) }) := by
  simp only [List.mem_cons, List.mem_singleton, not_or] at h
  simp only [handleWorkerMessage]
  split <;> simp_all

theorem unknown_message_type_witness :
    handleWorkerMessage ⟨true, true⟩ OPFSWorkerStorage.initial []
      { type := "finalize", id := "42" } =
      (OPFSWorkerStorage.initial, [],
        { type := "error", id := "42",
          error := some "Unknown message type: finalize" }) :=
  unknown_message_type ⟨true, true⟩ OPFSWorkerStorage.initial []
    { type := "finalize", id := "42" } (by decide)

/-- C9: calling `stopRecording` when no recording is in progress (no recorder
instance, or the recording flag is off) resolves immediately with `null`
rather than waiting, throwing or rejecting, and terminates and releases the
storage bridge if one was held. -/
theorem stopRecording_idle (st : OrchestratorState)
    (h : st.mediaRecorderPresent = false ∨ st.isRecording = false) :
    (stopRecording st).1 = .resolvedNull ∧
    (stopRecording st).2.workerStorage = none ∧
    (∀ b, st.workerStorage = some b → b ∈ (stopRecording st).2.terminatedBridges) := by
  have hcond : (st.mediaRecorderPresent && st.isRecording) = false := by
    rcases h with h | h <;> simp [h]
  rcases hs : st.workerStorage with _ | b <;>
    simp [stopRecording, hcond, hs]

theorem stopRecording_idle_witness :
    (stopRecording ⟨false, false, some 7, []⟩).1 = .resolvedNull ∧
    (stopRecording ⟨false, false, some 7, []⟩).2.workerStorage = none ∧
    (∀ b, (some 7 : Option Nat) = some b →
      b ∈ (stopRecording ⟨false, false, some 7, []⟩).2.terminatedBridges) :=
  stopRecording_idle ⟨false, false, some 7, []⟩ (Or.inl rfl)

end MeetRecording

namespace MeetRecording

/-- C2 counterexample: the at-most-one-write-in-flight reading is false. From
the start state with two encoder chunks, firing the second timeslice event
before the first round trip completes is a legal execution — the `await` inside
`ondataavailable` suspends only that handler invocation and does not gate the
next event — reaching a state with two `addChunk` calls in flight at once. -/
theorem atMostOneInFlight_false :
    ¬ (∀ s, PipelineReachable 2 s → s.inFlight.length ≤ 1) := by
  intro hclaim
  have h1 : PipelineStep 2 PipelineState.start ⟨1, [0], [], [], [0]⟩ :=
    PipelineStep.fireDataAvailable (by decide)
  have h2 : PipelineStep 2 ⟨1, [0], [], [], [0]⟩ ⟨2, [0, 1], [], [], [0, 1]⟩ :=
    PipelineStep.fireDataAvailable (by decide)
  have hr : PipelineReachable 2 ⟨2, [0, 1], [], [], [0, 1]⟩ :=
    .step (.step .refl h1) h2
  have hlen := hclaim _ hr
  simp at hlen

/-- C2 (amended): in every reachable pipeline state the chunks appended to
storage are exactly chunks 0, 1, 2, ... in encoder emission order — each
handler posts its `addChunk` request synchronously in event order and the
storage worker drains its inbox FIFO, so order is preserved with no gap and no
duplication — even though several round trips may be in flight at once. -/
theorem chunk_order_preserved (total : Nat) (s : PipelineState)
    (h : PipelineReachable total s) :
    s.workerWritten = List.range s.workerWritten.length := by
  have key : s.workerWritten ++ s.workerInbox = List.range s.firedEvents := by
    induction h with
    | refl => rfl
    | step hr hstep ih =>
        cases hstep with
        | fireDataAvailable h =>
            simp only [List.range_succ, ← ih, List.append_assoc]
        | workerWrite h =>
            simp only [h] at ih
            simp only [← ih, List.append_assoc, List.singleton_append]
        | deliverResponse h => simpa using ih
  have hlen : s.workerWritten.length ≤ s.firedEvents := by
    have hl := congrArg List.length key
    simp at hl
    omega
  calc s.workerWritten
      = (s.workerWritten ++ s.workerInbox).take s.workerWritten.length :=
        (List.take_left _ _).symm
    _ = (List.range s.firedEvents).take s.workerWritten.length := by rw [key]
    _ = List.range (min s.workerWritten.length s.firedEvents) := List.take_range _ _
    _ = List.range s.workerWritten.length := by rw [min_eq_left hlen]

theorem chunk_order_preserved_witness :
    (⟨1, [], [0], [0], [0]⟩ : PipelineState).workerWritten =
      List.range (⟨1, [], [0], [0], [0]⟩ : PipelineState).workerWritten.length :=
  chunk_order_preserved 2 _
    (.step (.step .refl (.fireDataAvailable (by decide))) (.workerWrite rfl))

end MeetRecording

namespace MeetRecording

theorem firstSupported_eq_getD (sup : String → Bool) (l : List String) (i : Nat)
    (hi : i < l.length) (hsup : sup (l.getD i "") = true)
    (hbefore : ∀ j, j < i → sup (l.getD j "") = false) :
    firstSupported sup l = some (l.getD i "") := by
  induction l generalizing i with
  | nil => simp at hi
  | cons c rest ih =>
      cases i with
      | zero => simp_all [firstSupported]
      | succ n =>
          have hc : sup c = false := by simpa using hbefore 0 (by omega)
          simp only [firstSupported, hc, Bool.false_eq_true, if_false, List.getD_cons_succ]
          exact ih n (by simpa using hi) (by simpa using hsup)
            (fun j hj => by simpa using hbefore (j + 1) (by omega))

theorem firstSupported_none (sup : String → Bool) (l : List String)
    (h : ∀ c ∈ l, sup c = false) : firstSupported sup l = none := by
  induction l with
  | nil => rfl
  | cons c rest ih =>
      have hc : sup c = false := h c (by simp)
      simp only [firstSupported, hc, Bool.false_eq_true, if_false]
      exact ih (fun d hd => h d (by simp [hd]))

theorem firstSupported_mem (sup : String → Bool) (l : List String) (c : String)
    (h : firstSupported sup l = some c) : c ∈ l := by
  induction l with
  | nil => cases h
  | cons d rest ih =>
      by_cases hd : sup d = true
      · simp only [firstSupported, hd, if_true, Option.some.injEq] at h
        simp [h]
      · simp only [firstSupported, hd, if_false] at h
        simp [ih h]

/-- C6: codec negotiation returns the first candidate of the mp4 preference
list (in list order) that the platform encoder supports, paired with extension
`mp4`; only when no mp4 candidate is supported does it return the first
supported candidate of the webm list, paired with `webm`. In the source the
selection runs once, in a `const` at module scope of `useMeetingRecorder.ts`,
before any session, so the selected pair is fixed for the process lifetime. -/
theorem getRecordingDetails_preference (isTypeSupported : String → Bool) :
    (∀ i, i < mp4Codecs.length → isTypeSupported (mp4Codecs.getD i "") = true →
      (∀ j, j < i → isTypeSupported (mp4Codecs.getD j "") = false) →
      getRecordingDetails isTypeSupported = (mp4Codecs.getD i "", "mp4")) ∧
    ((∀ c ∈ mp4Codecs, isTypeSupported c = false) →
      ∀ i, i < webmCodecs.length → isTypeSupported (webmCodecs.getD i "") = true →
      (∀ j, j < i → isTypeSupported (webmCodecs.getD j "") = false) →
      getRecordingDetails isTypeSupported = (webmCodecs.getD i "", "webm")) := by
  constructor
  · intro i hi hsup hbefore
    rw [getRecordingDetails, firstSupported_eq_getD isTypeSupported mp4Codecs i hi hsup hbefore]
  · intro hmp4 i hi hsup hbefore
    rw [getRecordingDetails, firstSupported_none isTypeSupported mp4Codecs hmp4,
      firstSupported_eq_getD isTypeSupported webmCodecs i hi hsup hbefore]

theorem getRecordingDetails_preference_witness :
    getRecordingDetails (· == "video/mp4;codecs=avc1") = ("video/mp4;codecs=avc1", "mp4") :=
  (getRecordingDetails_preference (· == "video/mp4;codecs=avc1")).1 2
    (by decide) (by decide) (by decide)

/-- C10: when the encoder supports no candidate of either list,
`getRecordingDetails` still succeeds and returns the default pair
`(video/webm, webm)`; and for every support predicate the selected mime type is
an mp4 candidate, a webm candidate, or that default — never anything else. The
embedding is a total function, matching the fact that the negotiation code has
no throwing path. -/
theorem getRecordingDetails_default (isTypeSupported : String → Bool) :
    ((∀ c ∈ mp4Codecs, isTypeSupported c = false) →
     (∀ c ∈ webmCodecs, isTypeSupported c = false) →
      getRecordingDetails isTypeSupported = ("video/webm", "webm")) ∧
    ((getRecordingDetails isTypeSupported).1 ∈ mp4Codecs ∨
     (getRecordingDetails isTypeSupported).1 ∈ webmCodecs ∨
     (getRecordingDetails isTypeSupported).1 = "video/webm") := by
  constructor
  · intro hmp4 hwebm
    rw [getRecordingDetails, firstSupported_none isTypeSupported mp4Codecs hmp4,
      firstSupported_none isTypeSupported webmCodecs hwebm]
  · rw [getRecordingDetails]
    rcases hm : firstSupported isTypeSupported mp4Codecs with _ | c
    · rcases hw : firstSupported isTypeSupported webmCodecs with _ | c
      · simp
      · simp [firstSupported_mem isTypeSupported webmCodecs c hw]
    · simp [firstSupported_mem isTypeSupported mp4Codecs c hm]

theorem getRecordingDetails_default_witness :
    getRecordingDetails (fun _ => false) = ("video/webm", "webm") :=
  (getRecordingDetails_default (fun _ => false)).1 (fun _ _ => rfl) (fun _ _ => rfl)

end MeetRecording

namespace MeetRecording

theorem mapGet_mapSet_self (m : List (String × Nat)) (k : String) (v : Nat) :
    mapGet (mapSet m k v) k = some v := by
  induction m with
  | nil => simp [mapSet, mapGet]
  | cons hd tl ih =>
      obtain ⟨k0, v0⟩ := hd
      by_cases h : k0 = k <;> simp [mapSet, mapGet, h, ih]

theorem mapGet_mapSet_other (m : List (String × Nat)) (k k' : String) (v : Nat)
    (h : k ≠ k') : mapGet (mapSet m k v) k' = mapGet m k' := by
  induction m with
  | nil => simp [mapSet, mapGet, h]
  | cons hd tl ih =>
      obtain ⟨k0, v0⟩ := hd
      by_cases h0 : k0 = k
      · subst h0
        simp [mapSet, mapGet, h]
      · simp only [mapSet, h0, if_false]
        by_cases h1 : k0 = k' <;> simp [mapGet, h1, ih]

theorem mem_keys_mapSet (m : List (String × Nat)) (k : String) (v : Nat) (x : String)
    (h : x ∈ (mapSet m k v).map Prod.fst) : x ∈ m.map Prod.fst ∨ x = k := by
  induction m with
  | nil =>
      simp [mapSet] at h
      exact Or.inr h
  | cons hd tl ih =>
      obtain ⟨k0, v0⟩ := hd
      by_cases h0 : k0 = k
      · subst h0
        simp only [mapSet, if_true] at h
        simp at h
        rcases h with h | h
        · exact Or.inr h
        · exact Or.inl (by simp [h])
      · simp only [mapSet, h0, if_false, List.map_cons, List.mem_cons] at h
        rcases h with h | h
        · exact Or.inl (by simp [h])
        · rcases ih h with h | h
          · exact Or.inl (by simp [h])
          · exact Or.inr h

theorem mapSet_keys_nodup (m : List (String × Nat)) (k : String) (v : Nat)
    (h : (m.map Prod.fst).Nodup) : ((mapSet m k v).map Prod.fst).Nodup := by
  induction m with
  | nil => simp [mapSet]
  | cons hd tl ih =>
      obtain ⟨k0, v0⟩ := hd
      simp only [List.map_cons, List.nodup_cons] at h
      obtain ⟨hk0, htl⟩ := h
      by_cases h0 : k0 = k
      · subst h0
        simp only [mapSet, if_true, List.map_cons, List.nodup_cons]
        exact ⟨hk0, htl⟩
      · simp only [mapSet, h0, if_false, List.map_cons, List.nodup_cons]
        refine ⟨?_, ih htl⟩
        intro hmem
        rcases mem_keys_mapSet tl k v k0 hmem with hmem | hmem
        · exact hk0 hmem
        · exact h0 hmem

theorem storeFrame_closed_mono (s : RenderWorkerState) (k : String) (v : Nat)
    (x : Nat) (h : x ∈ s.closedFrames) : x ∈ (storeFrame s k v).closedFrames := by
  unfold storeFrame
  rcases hget : mapGet s.videoFrames k with _ | old <;> simp [hget, h]

theorem foldl_storeFrame_closed_mono (entries : List (String × Nat))
    (s : RenderWorkerState) (x : Nat) (h : x ∈ s.closedFrames) :
    x ∈ (entries.foldl (fun t kv => storeFrame t kv.1 kv.2) s).closedFrames := by
  induction entries generalizing s with
  | nil => simpa using h
  | cons kv rest ih =>
      simp only [List.foldl_cons]
      exact ih _ (storeFrame_closed_mono s kv.1 kv.2 x h)

theorem storeFrame_closes (s : RenderWorkerState) (k : String) (v old : Nat)
    (hget : mapGet s.videoFrames k = some old) :
    old ∈ (storeFrame s k v).closedFrames ∧
    mapGet (storeFrame s k v).videoFrames k = some v := by
  unfold storeFrame
  simp [hget, mapGet_mapSet_self]

theorem storeFrame_videoFrames (s : RenderWorkerState) (k : String) (v : Nat) :
    (storeFrame s k v).videoFrames = mapSet s.videoFrames k v := by
  unfold storeFrame
  rcases hget : mapGet s.videoFrames k with _ | old <;> simp [hget]

theorem foldl_storeFrame_closes (entries : List (String × Nat))
    (s : RenderWorkerState) (k : String) (old : Nat)
    (hget : mapGet s.videoFrames k = some old) (hk : k ∈ entries.map Prod.fst) :
    old ∈ (entries.foldl (fun t kv => storeFrame t kv.1 kv.2) s).closedFrames := by
  induction entries generalizing s with
  | nil => simp at hk
  | cons kv rest ih =>
      obtain ⟨k0, v0⟩ := kv
      simp only [List.foldl_cons]
      by_cases h0 : k0 = k
      · subst h0
        exact foldl_storeFrame_closed_mono rest _ old (storeFrame_closes s k0 v0 old hget).1
      · refine ih _ ?_ ?_
        · rw [storeFrame_videoFrames, mapGet_mapSet_other _ _ _ _ h0]
          exact hget
        · simp only [List.map_cons, List.mem_cons] at hk
          rcases hk with hk | hk
          · exact absurd hk.symm h0
          · exact hk

theorem foldl_storeFrame_nodup (entries : List (String × Nat))
    (s : RenderWorkerState) (h : (s.videoFrames.map Prod.fst).Nodup) :
    (((entries.foldl (fun t kv => storeFrame t kv.1 kv.2) s).videoFrames).map
      Prod.fst).Nodup := by
  induction entries generalizing s with
  | nil => simpa using h
  | cons kv rest ih =>
      simp only [List.foldl_cons]
      refine ih _ ?_
      rw [storeFrame_videoFrames]
      exact mapSet_keys_nodup _ _ _ h

end MeetRecording

namespace MeetRecording

/-- C8: the decoded-frame cache of the render worker holds at most one frame
per key after every processed message (keys are participant identities, with
the screen-share of a participant cached under the distinct `-screenshare`
key); every `updateFrame` — and every `updateFrames` entry — for a key that
already holds a frame closes and releases the old frame before storing the new
one; and `stop` releases every cached frame and empties the cache. -/
theorem frame_cache_bounded (s : RenderWorkerState) (m : RenderMessage)
    (h : (s.videoFrames.map Prod.fst).Nodup) :
    ((handleRenderMessage s m).videoFrames.map Prod.fst).Nodup ∧
    (∀ key frame oldFrame, m = .updateFrame key frame →
      mapGet s.videoFrames key = some oldFrame →
      oldFrame ∈ (handleRenderMessage s m).closedFrames ∧
      mapGet (handleRenderMessage s m).videoFrames key = some frame) ∧
    (∀ entries key oldFrame, m = .updateFrames entries →
      mapGet s.videoFrames key = some oldFrame → key ∈ entries.map Prod.fst →
      oldFrame ∈ (handleRenderMessage s m).closedFrames) ∧
    (m = .stop → (handleRenderMessage s m).videoFrames = [] ∧
      ∀ kv ∈ s.videoFrames, kv.2 ∈ (handleRenderMessage s m).closedFrames) ∧
    (∀ ident, participantKey ident true ≠ participantKey ident false) := by
  refine ⟨?_, ?_, ?_, ?_, ?_⟩
  · cases m with
    | init st => rcases st with _ | st <;> simpa [handleRenderMessage] using h
    | render => simpa [handleRenderMessage] using h
    | updateState st => rcases st with _ | st <;> simpa [handleRenderMessage] using h
    | updateFrame key frame =>
        simpa [handleRenderMessage, storeFrame_videoFrames] using
          mapSet_keys_nodup s.videoFrames key frame h
    | updateFrames entries =>
        simpa [handleRenderMessage] using foldl_storeFrame_nodup entries s h
    | stop => simp [handleRenderMessage, stopRenderLoop]
  · intro key frame oldFrame hm hget
    subst hm
    simpa [handleRenderMessage] using storeFrame_closes s key frame oldFrame hget
  · intro entries key oldFrame hm hget hk
    subst hm
    simpa [handleRenderMessage] using foldl_storeFrame_closes entries s key oldFrame hget hk
  · intro hm
    subst hm
    refine ⟨by simp [handleRenderMessage, stopRenderLoop], ?_⟩
    intro kv hkv
    simp [handleRenderMessage, stopRenderLoop]
    right
    exact ⟨kv.1, by simpa using hkv⟩
  · intro ident heq
    have hlen := congrArg String.length heq
    simp [participantKey, String.length_append] at hlen
    exact absurd hlen (by decide)

theorem frame_cache_bounded_witness :
    (((handleRenderMessage
        { renderState := { participants := [], isLargerThanMd := true, isNarrowHeight := false },
          videoFrames := [("alice", 1)], closedFrames := [], renderOn := true }
        (.updateFrame "alice" 2)).videoFrames.map Prod.fst).Nodup) ∧
    (1 : Nat) ∈ (handleRenderMessage
        { renderState := { participants := [], isLargerThanMd := true, isNarrowHeight := false },
          videoFrames := [("alice", 1)], closedFrames := [], renderOn := true }
        (.updateFrame "alice" 2)).closedFrames ∧
    mapGet (handleRenderMessage
        { renderState := { participants := [], isLargerThanMd := true, isNarrowHeight := false },
          videoFrames := [("alice", 1)], closedFrames := [], renderOn := true }
        (.updateFrame "alice" 2)).videoFrames "alice" = some 2 := by
  have h := frame_cache_bounded
    { renderState := { participants := [], isLargerThanMd := true, isNarrowHeight := false },
      videoFrames := [("alice", 1)], closedFrames := [], renderOn := true }
    (.updateFrame "alice" 2) (by decide)
  obtain ⟨h1, h2, -, -, -⟩ := h
  obtain ⟨h3, h4⟩ := h2 "alice" 2 1 rfl (by decide)
  exact ⟨h1, h3, h4⟩

end MeetRecording

namespace MeetRecording

theorem take_min_length (l : List ParticipantInfo) (c : Nat) :
    l.take (min l.length c) = l.take c := by
  rcases le_total l.length c with h | h
  · rw [min_eq_left h, List.take_length, List.take_of_length_le h]
  · rw [min_eq_right h]

theorem sidebar_tile_bounds (H : ℚ) (k i : Nat) (hk : 1 ≤ k) (hi : i < k)
    (hH : 11 * ((k : ℚ) + 1) ≤ H) :
    0 ≤ 11 + (i : ℚ) * ((H - 11 * ((k : ℚ) + 1)) / (k : ℚ) + 11) ∧
    11 + (i : ℚ) * ((H - 11 * ((k : ℚ) + 1)) / (k : ℚ) + 11) +
      (H - 11 * ((k : ℚ) + 1)) / (k : ℚ) ≤ H - 11 := by
  have hk0 : (0 : ℚ) < (k : ℚ) := by exact_mod_cast hk
  have hk0' : (k : ℚ) ≠ 0 := ne_of_gt hk0
  have hnum : (0 : ℚ) ≤ H - 11 * ((k : ℚ) + 1) := by linarith
  have hih0 : (0 : ℚ) ≤ (H - 11 * ((k : ℚ) + 1)) / (k : ℚ) := div_nonneg hnum (le_of_lt hk0)
  have hkih : (k : ℚ) * ((H - 11 * ((k : ℚ) + 1)) / (k : ℚ)) = H - 11 * ((k : ℚ) + 1) := by
    rw [mul_comm, div_mul_cancel₀ _ hk0']
  have hi' : (i : ℚ) ≤ (k : ℚ) - 1 := by
    have hcast : (i : ℚ) + 1 ≤ (k : ℚ) := by exact_mod_cast hi
    linarith
  have hi0 : (0 : ℚ) ≤ (i : ℚ) := Nat.cast_nonneg i
  constructor
  · nlinarith [mul_nonneg hi0
      (by linarith : (0 : ℚ) ≤ (H - 11 * ((k : ℚ) + 1)) / (k : ℚ) + 11)]
  · nlinarith [mul_le_mul_of_nonneg_right hi'
      (by linarith : (0 : ℚ) ≤ (H - 11 * ((k : ℚ) + 1)) / (k : ℚ) + 11), hkih]

theorem sidebarTileAt_bounds (canvasWidth canvasHeight : ℚ) (regs : List ParticipantInfo)
    (videoFrames : List (String × Nat)) (t : TileDraw)
    (hreg : 0 < regs.length)
    (hH : GAP * ((numParticipantsInSidebar regs.length : ℚ) + 1) ≤ canvasHeight)
    (ht : t ∈ (regs.take PROFILE_COLORS.length).enum.map
      (sidebarTileAt canvasWidth canvasHeight regs.length videoFrames)) :
    t.x = canvasWidth - SIDEBAR_WIDTH ∧
    t.x + t.width = canvasWidth - GAP ∧
    0 ≤ t.y ∧
    t.y + t.height ≤ canvasHeight - GAP := by
  simp only [List.mem_map] at ht
  obtain ⟨ip, hip, rfl⟩ := ht
  have hk1 : 1 ≤ numParticipantsInSidebar regs.length :=
    Nat.le_min.mpr ⟨hreg, by norm_num [SCREEN_SHARE_PAGE_SIZE]⟩
  have hilt : ip.1 < numParticipantsInSidebar regs.length := by
    have h1 := List.fst_lt_of_mem_enum hip
    rw [List.length_take] at h1
    rw [numParticipantsInSidebar, Nat.min_comm]
    exact h1
  rw [show GAP = (11 : ℚ) from rfl] at hH
  have hb := sidebar_tile_bounds canvasHeight (numParticipantsInSidebar regs.length)
    ip.1 hk1 hilt hH
  refine ⟨?_, ?_, ?_, ?_⟩
  · simp only [sidebarTileAt, GAP, SIDEBAR_WIDTH]
    ring
  · simp only [sidebarTileAt, GAP, SIDEBAR_WIDTH]
    ring
  · simp only [sidebarTileAt, sidebarItemHeight, show GAP = (11 : ℚ) from rfl]
    exact hb.1
  · simp only [sidebarTileAt, sidebarItemHeight, show GAP = (11 : ℚ) from rfl]
    linarith [hb.2]

theorem sidebar_layout_aux (calculateGridLayout : Nat → Bool → Nat × Nat)
    (canvasWidth canvasHeight : ℚ) (rs : RenderState)
    (videoFrames : List (String × Nat)) (ssp : ParticipantInfo)
    (regs : List ParticipantInfo)
    (hss : rs.participants.find? (fun p => p.isScreenShare) = some ssp)
    (hregs : rs.participants.filter (fun p => !p.isScreenShare) = regs)
    (hreg : 0 < regs.length)
    (hH : GAP * ((numParticipantsInSidebar regs.length : ℚ) + 1) ≤ canvasHeight) :
    ∃ screen tiles,
      drawRecordingCanvas calculateGridLayout canvasWidth canvasHeight rs videoFrames =
        .screenShareWithSidebar screen tiles ∧
      tiles.map TileDraw.info = regs.take (numParticipantsInSidebar regs.length) ∧
      tiles.length = numParticipantsInSidebar regs.length ∧
      ∀ t ∈ tiles,
        t.x = canvasWidth - SIDEBAR_WIDTH ∧
        t.x + t.width = canvasWidth - GAP ∧
        0 ≤ t.y ∧
        t.y + t.height ≤ canvasHeight - GAP := by
  refine ⟨{ identity := ssp.identity
            label := ssp.name ++ " (Screen)"
            x := GAP
            y := GAP
            width := canvasWidth - SIDEBAR_WIDTH - GAP * 2
            height := canvasHeight - GAP * 2
            frame := mapGet videoFrames (ssp.identity ++ "-screenshare") },
    (regs.take PROFILE_COLORS.length).enum.map
      (sidebarTileAt canvasWidth canvasHeight regs.length videoFrames),
    ?_, ?_, ?_, ?_⟩
  · simp only [drawRecordingCanvas, hss, hregs]
    rw [if_pos hreg]
  · rw [List.map_map]
    rw [show TileDraw.info ∘
        sidebarTileAt canvasWidth canvasHeight regs.length videoFrames =
      Prod.snd from rfl]
    rw [List.enum_map_snd, numParticipantsInSidebar, take_min_length]
    rfl
  · simp only [List.length_map, List.enum_length, List.length_take,
      numParticipantsInSidebar]
    rw [Nat.min_comm]
    rfl
  · intro t ht
    exact sidebarTileAt_bounds canvasWidth canvasHeight regs videoFrames t hreg hH ht

/-- C7: whenever a paint tick has a screen-share slot and at least one regular
participant slot, the worker renders exactly
`min (number of regulars) (sidebar capacity)` sidebar tiles — the first
regulars in slot order — and omits the rest without error; every rendered tile
lies inside the fixed-width sidebar strip on the right edge of the canvas and
inside its vertical extent (given a canvas tall enough to hold the gaps),
never overflowing the sidebar region. -/
theorem sidebar_layout (calculateGridLayout : Nat → Bool → Nat × Nat)
    (canvasWidth canvasHeight : ℚ) (rs : RenderState)
    (videoFrames : List (String × Nat)) (ssp : ParticipantInfo)
    (hss : rs.participants.find? (fun p => p.isScreenShare) = some ssp)
    (hreg : 0 < (rs.participants.filter (fun p => !p.isScreenShare)).length)
    (hH : GAP * ((numParticipantsInSidebar
        (rs.participants.filter (fun p => !p.isScreenShare)).length : ℚ) + 1) ≤
      canvasHeight) :
    ∃ screen tiles,
      drawRecordingCanvas calculateGridLayout canvasWidth canvasHeight rs videoFrames =
        .screenShareWithSidebar screen tiles ∧
      tiles.map TileDraw.info =
        (rs.participants.filter (fun p => !p.isScreenShare)).take
          (numParticipantsInSidebar
            (rs.participants.filter (fun p => !p.isScreenShare)).length) ∧
      tiles.length =
        numParticipantsInSidebar
          (rs.participants.filter (fun p => !p.isScreenShare)).length ∧
      ∀ t ∈ tiles,
        t.x = canvasWidth - SIDEBAR_WIDTH ∧
        t.x + t.width = canvasWidth - GAP ∧
        0 ≤ t.y ∧
        t.y + t.height ≤ canvasHeight - GAP :=
  sidebar_layout_aux calculateGridLayout canvasWidth canvasHeight rs videoFrames ssp
    (rs.participants.filter (fun p => !p.isScreenShare)) hss rfl hreg hH

end MeetRecording

namespace MeetRecording

theorem sidebar_layout_witness :
    ∃ screen tiles,
      drawRecordingCanvas (fun _ _ => (1, 1)) 1920 1080 sidebarExampleState [] =
        .screenShareWithSidebar screen tiles ∧
      tiles.map TileDraw.info =
        (sidebarExampleState.participants.filter (fun p => !p.isScreenShare)).take 6 ∧
      tiles.length = 6 ∧
      ∀ t ∈ tiles,
        t.x = 1920 - SIDEBAR_WIDTH ∧
        t.x + t.width = 1920 - GAP ∧
        0 ≤ t.y ∧
        t.y + t.height ≤ 1080 - GAP :=
  sidebar_layout (fun _ _ => (1, 1)) 1920 1080 sidebarExampleState []
    { identity := "s", name := "S", participantIndex := 0, isScreenShare := true,
      hasVideo := true, hasActiveAudio := false }
    (by rfl) (by decide)
    (by
      show GAP * (((6 : Nat) : ℚ) + 1) ≤ 1080
      norm_num [GAP])

end MeetRecording
